import Mathlib

/-!
Verification development for the purify Result / ResultAsync library.

The synchronous `Result` type is embedded directly from `src/Result.ts`
(the unnamed source file): an inductive with the two variants `Err` and
`Ok`, and each method translated case by case.

The asynchronous layer (`src/ResultAsync.ts`) is embedded with a small
deterministic model of the host's promise semantics: a `Comp ε α` is an
async computation run to settlement, recording the ordered list of
producer-invocation labels it performed (its `trace`) and its settlement
(`Except.ok` for a fulfilled promise, `Except.error` for a rejected one;
a `throw` inside an async function rejects the returned promise, so the
thrown-exception channel and the rejection channel coincide, as they do
in the host). `bindComp` models `await` sequencing: a rejection aborts
the rest of the async function body. A `ResultAsync` holds its producer's
computation; every producer in the model is deterministic, matching the
claims' deterministic-producer scope.
-/

/-- Ordered labels of producer invocations performed by a computation.
A producer's label appearing in a composite computation's trace means
that producer was invoked during the composite run. -/
abbrev Trace := List Nat

/-- The two-variant Result type from src/Result.ts: `Err` holds the error
payload, `Ok` the success payload. -/
inductive Result (ε α : Type) where
  | Err : ε → Result ε α
  | Ok : α → Result ε α
deriving DecidableEq, Repr

/-- Variant predicate `isErr` from the source (`Err.isErr` returns true,
`Ok.isErr` returns false). -/
def Result.isErr : Result ε α → Bool
  | Result.Err _ => true
  | Result.Ok _ => false

/-- Variant predicate `isOk` from the source. -/
def Result.isOk : Result ε α → Bool
  | Result.Err _ => false
  | Result.Ok _ => true

/-- Method `map` from the source: `Ok.map` applies f to the payload,
`Err.map` returns the receiver. -/
def Result.map (f : α → β) : Result ε α → Result ε β
  | Result.Ok v => Result.Ok (f v)
  | Result.Err e => Result.Err e

/-- Method `ap` from the source.
`Ok.ap(other)` is `other.isOk() ? this.map(other.extract()) : other`;
`Err.ap(other)` is `other.isErr() ? other : this`. -/
def Result.ap : Result ε α → Result ε (α → β) → Result ε β
  | Result.Ok v, Result.Ok f => (Result.Ok v).map f
  | Result.Ok _, Result.Err e => Result.Err e
  | Result.Err e, Result.Ok _ => Result.Err e
  | Result.Err _, Result.Err e2 => Result.Err e2

/-- Method `equals` from the source. `Ok.equals(other)` is
`other.isOk() ? this.__value === other.extract() : false`;
`Err.equals(other)` is `other.isErr() ? other.extract() === this.__value : false`.
The host's `===` on payloads is modelled as decidable equality. -/
def Result.equals [DecidableEq ε] [DecidableEq α] : Result ε α → Result ε α → Bool
  | Result.Ok v, Result.Ok w => decide (v = w)
  | Result.Ok _, Result.Err _ => false
  | Result.Err e, Result.Err f => decide (f = e)
  | Result.Err _, Result.Ok _ => false

/-- Method `alt` from the source: `Ok.alt(_)` returns the receiver,
`Err.alt(other)` returns the argument. -/
def Result.alt : Result ε α → Result ε α → Result ε α
  | Result.Ok v, _ => Result.Ok v
  | Result.Err _, other => other

/-- Method `altLazy` from the source: `Ok.altLazy(_)` returns the receiver
without touching the thunk, `Err.altLazy(other)` returns `other()`. -/
def Result.altLazy : Result ε α → (Unit → Result ε α) → Result ε α
  | Result.Ok v, _ => Result.Ok v
  | Result.Err _, other => other ()

/-- Method `ifOk` from the source: `Ok.ifOk(effect)` evaluates
`effect(this.__value)` and returns `this`; `Err.ifOk(_)` returns `this`.
The effect callback is modelled by the trace one invocation emits, and the
method returns the receiver paired with the trace of the calls it made. -/
def Result.ifOk (r : Result ε α) (effect : α → Trace) : Result ε α × Trace :=
  match r with
  | Result.Ok v => (r, effect v)
  | Result.Err _ => (r, [])

/-- Method `ifErr` from the source: `Err.ifErr(effect)` evaluates
`effect(this.__value)` and returns `this`; `Ok.ifErr(_)` returns `this`. -/
def Result.ifErr (r : Result ε α) (effect : ε → Trace) : Result ε α × Trace :=
  match r with
  | Result.Ok _ => (r, [])
  | Result.Err e => (r, effect e)

/-- Loop body of the static `Result.sequence` from the source: iterates the
list, returning the first `Err` element as is, otherwise pushing each `Ok`
payload onto the accumulator and finally returning `Ok` of the accumulator. -/
def Result.sequenceGo : List (Result ε α) → List α → Result ε (List α)
  | [], res => Result.Ok res
  | Result.Err e :: _, _ => Result.Err e
  | Result.Ok v :: rest, res => Result.sequenceGo rest (res ++ [v])

/-- Static `Result.sequence` from the source: turns a list of Results into
a Result of list, stopping at the first `Err`. -/
def Result.sequence (results : List (Result ε α)) : Result ε (List α) :=
  Result.sequenceGo results []

/-- Model of a host async computation run to settlement: the trace of
producer invocations it performed and its settlement. `Except.error`
covers both a rejected promise and a thrown exception, which the host
identifies inside an async function. -/
structure Comp (ε α : Type) where
  trace : Trace
  result : Except ε α

/-- An immediately fulfilled computation (`Promise.resolve`, or an async
function body returning a plain value). -/
def pureComp (a : α) : Comp ε α := ⟨[], Except.ok a⟩

/-- Models `await` sequencing inside an async function body: the awaited
computation's effects happen first; if it rejects, the rest of the body is
skipped and the whole computation rejects with the same value. -/
def bindComp (x : Comp ε α) (f : α → Comp ε β) : Comp ε β :=
  match x.result with
  | Except.error e => ⟨x.trace, Except.error e⟩
  | Except.ok a => ⟨x.trace ++ (f a).trace, (f a).result⟩

/-- Helper `liftResult` from the helper bundle in src/ResultAsync.ts:
if the Result is Ok it returns `Promise.resolve(result.extract())`,
otherwise it throws `result.extract()`. -/
def helpers.liftResult : Result ε α → Comp ε α
  | Result.Ok v => ⟨[], Except.ok v⟩
  | Result.Err e => ⟨[], Except.error e⟩

/-- Helper `throwE` from the helper bundle: unconditionally throws the
given typed error, aborting the producer. -/
def helpers.throwE (e : ε) : Comp ε α := ⟨[], Except.error e⟩

/-- Helper `fromPromise` from the helper bundle:
`promise.then(helpers.liftResult)` — awaits the promise (propagating its
rejection) and lifts the Result it fulfills with. -/
def helpers.fromPromise (p : Comp ε (Result ε α)) : Comp ε α :=
  bindComp p helpers.liftResult

/-- A ResultAsync from src/ResultAsync.ts: holds its producer, never run
at construction time. The producer is represented by the computation one
run of it performs (all producers in the model are deterministic). -/
structure ResultAsync (ε α : Type) where
  runPromise : Comp ε α

/-- Method `run` from the source:
`try { return Ok(await this.runPromise(helpers)) } catch (e) { return Err(e) }`.
Its total type records that run always resolves to a Result and has no
rejection channel of its own. -/
def ResultAsync.run (x : ResultAsync ε α) : Result ε α :=
  match x.runPromise.result with
  | Except.ok v => Result.Ok v
  | Except.error e => Result.Err e

/-- Models awaiting a ResultAsync (equivalently `await this.run()`) inside
another producer: the `then` method delegates to `run()`, so the await
performs the receiver's producer effects and always fulfills with the run
Result — run never rejects, hence the fulfilled settlement for any target
error type. -/
def ResultAsync.awaitRun (x : ResultAsync ε α) : Comp ε2 (Result ε α) :=
  ⟨x.runPromise.trace, Except.ok x.run⟩

/-- Static `ResultAsync.liftResult` from the source:
`ResultAsync(({ liftResult }) => liftResult(result))`. -/
def ResultAsync.liftResult (r : Result ε α) : ResultAsync ε α :=
  ⟨helpers.liftResult r⟩

/-- Static `ResultAsync.fromPromise` from the source:
`ResultAsync(({ fromPromise: fP }) => fP(f()))`, with the promise `f()`
returns represented by the computation `p`. -/
def ResultAsync.fromPromise (p : Comp ε (Result ε α)) : ResultAsync ε α :=
  ⟨helpers.fromPromise p⟩

/-- Method `alt` from the source: the producer awaits `this`; if the Result
is Ok it returns the extracted value, otherwise it awaits `other` and
lifts that Result. -/
def ResultAsync.alt (x other : ResultAsync ε α) : ResultAsync ε α :=
  ⟨bindComp x.awaitRun fun thisValue =>
    match thisValue with
    | Result.Ok v => pureComp v
    | Result.Err _ => bindComp other.awaitRun fun otherValue =>
        helpers.liftResult otherValue⟩

/-- Method `swap` from the source: the producer awaits `this.run()`; if the
Result is Ok it calls `helpers.throwE(result.extract())` — which aborts the
producer, so the final `return` line is unreachable in that branch — and
if the Result is Err it lifts `Ok(result.extract())`. -/
def ResultAsync.swap (x : ResultAsync ε α) : ResultAsync α ε :=
  ⟨bindComp x.awaitRun fun result =>
    match result with
    | Result.Ok v => helpers.throwE v
    | Result.Err e => helpers.liftResult (Result.Ok e)⟩

/-- Loop body of static `ResultAsync.sequence` from the source:
`for await (const e of eas)` awaits each element in input order (the await
observes the element's run Result); on an Err element it returns
`helpers.liftResult(e)` at once, otherwise it pushes the extracted payload
and continues; after the loop it lifts `Ok(res)`. Elements after the first
Err are never awaited, so their producers are never invoked. -/
def ResultAsync.seqGo : List (ResultAsync ε α) → List α → Comp ε (List α)
  | [], res => helpers.liftResult (Result.Ok res)
  | e :: rest, res =>
    bindComp e.awaitRun fun r =>
      match r with
      | Result.Err er => helpers.liftResult (Result.Err er)
      | Result.Ok v => ResultAsync.seqGo rest (res ++ [v])

/-- Static `ResultAsync.sequence` from the source. -/
def ResultAsync.sequence (eas : List (ResultAsync ε α)) : ResultAsync ε (List α) :=
  ⟨ResultAsync.seqGo eas []⟩

/-- Models the host's `Promise.all` applied to a list of ResultAsync
thenables, as in static `ResultAsync.all`: every element is started, so
every producer's trace is performed; each element's `then` delegates to
`run()`, which never rejects, so the aggregate cannot reject early on any
schedule — it always fulfills, after all elements settle, with the list of
run Results in input order. -/
def promiseAllRuns (eas : List (ResultAsync ε α)) : Comp ε2 (List (Result ε α)) :=
  ⟨eas.flatMap fun x => x.runPromise.trace, Except.ok (eas.map ResultAsync.run)⟩

/-- Static `ResultAsync.all` from the source:
`ResultAsync.fromPromise(async () => Promise.all(eas).then(Result.sequence))`. -/
def ResultAsync.all (eas : List (ResultAsync ε α)) : ResultAsync ε (List α) :=
  ResultAsync.fromPromise
    (bindComp (promiseAllRuns eas) fun rs => pureComp (Result.sequence rs))

/-- An effect callback passed to `finally`: the trace one invocation emits
and the error it throws, if any (`none` models an effect that completes
normally; its return value is discarded by the host's finally). -/
structure Effect (ε : Type) where
  trace : Trace
  thrown : Option ε

/-- Models the host's `Promise.prototype.finally`: after `p` settles the
callback runs; if the callback throws, the resulting promise rejects with
that error, otherwise the resulting promise settles exactly as `p` did. -/
def promiseFinally (p : Comp ε α) (eff : Effect ε) : Comp ε α :=
  ⟨p.trace ++ eff.trace,
    match eff.thrown with
    | some e => Except.error e
    | none => p.result⟩

/-- Method `finally` from the source (written `finallyRun` here):
`ResultAsync(({ fromPromise }) => fromPromise(this.run().finally(effect)))`.
The awaited `this.run()` promise is the receiver's run, which never
rejects. -/
def ResultAsync.finallyRun (x : ResultAsync ε α) (eff : Effect ε) : ResultAsync ε α :=
  ⟨helpers.fromPromise (promiseFinally x.awaitRun eff)⟩

/-- Auxiliary minimum-by-time scan for `earliestFailure`. -/
def earliestFailureAux (best : Nat × ε) : List (Nat × ε) → Nat × ε
  | [] => best
  | x :: rest =>
    if x.1 < best.1 then earliestFailureAux x rest
    else earliestFailureAux best rest

/-- Picks the failure with the smallest completion time (used by the
spec-side model of `all`). -/
def earliestFailure : List (Nat × ε) → Option ε
  | [] => none
  | x :: rest => some (earliestFailureAux x rest).2

/-- Modelled from the spec (section 4.3, `all`), for comparison with the
source's `ResultAsync.all`: the spec says all elements run concurrently and
the aggregate "resolves to the first Failure observed among all of them
(not necessarily positional-first — tie-break is whichever concurrent run's
rejection/short-circuit completes the aggregate resolution first, which
depends on the concurrent completion order, not input order), or
Success(orderedSequence) if every element succeeds". Each element is paired
with the time at which its run completes; among the elements whose run is
a Failure, the one with the smallest completion time is the first observed. -/
def allByCompletion (l : List (ResultAsync ε α × Nat)) : Result ε (List α) :=
  match earliestFailure (l.filterMap fun p =>
      match p.1.run with
      | Result.Err e => some (p.2, e)
      | Result.Ok _ => none) with
  | some e => Result.Err e
  | none => Result.sequence (l.map fun p => p.1.run)

/-- Unfolding lemma: running a ResultAsync whose producer fulfills. -/
theorem run_of_ok {ε α : Type} {c : Comp ε α} {v : α}
    (h : c.result = Except.ok v) : (ResultAsync.mk c).run = Result.Ok v := by
  simp [ResultAsync.run, h]

/-- Unfolding lemma: running a ResultAsync whose producer rejects. -/
theorem run_of_error {ε α : Type} {c : Comp ε α} {e : ε}
    (h : c.result = Except.error e) : (ResultAsync.mk c).run = Result.Err e := by
  simp [ResultAsync.run, h]

/-- Lifting a Result and running gives the Result back. -/
theorem run_liftResult {ε α : Type} (r : Result ε α) :
    (ResultAsync.liftResult r).run = r := by
  cases r <;> rfl

/-- C5: For the synchronous Outcome's ap: Success(v).ap(Success(fn)) equals
Success(fn(v)); Success(v).ap(Failure(e)) equals Failure(e);
Failure(e).ap(Success(fn)) equals Failure(e) (the receiver's Failure); and
Failure(e).ap(Failure(e2)) equals Failure(e2) (the function side's Failure
takes precedence when both are Failure). -/
theorem ap_truth_table (ε α β : Type) :
    (∀ (v : α) (f : α → β), (Result.Ok v : Result ε α).ap (Result.Ok f) = Result.Ok (f v))
  ∧ (∀ (v : α) (e : ε), (Result.Ok v : Result ε α).ap (Result.Err e : Result ε (α → β)) = Result.Err e)
  ∧ (∀ (e : ε) (f : α → β), (Result.Err e : Result ε α).ap (Result.Ok f) = Result.Err e)
  ∧ (∀ (e e2 : ε), (Result.Err e : Result ε α).ap (Result.Err e2 : Result ε (α → β)) = Result.Err e2) :=
  ⟨fun _ _ => rfl, fun _ _ => rfl, fun _ _ => rfl, fun _ _ => rfl⟩

/-- C7: equals returns true if and only if the two Outcomes have the same
variant and equal payloads — equivalently, iff they are structurally equal
values; Outcomes of different variants are never equal, even when the
payloads coincide. -/
theorem equals_iff_structural (ε α : Type) [DecidableEq ε] [DecidableEq α] :
    (∀ a b : Result ε α, a.equals b = true ↔ a = b)
  ∧ (∀ v w : α, (Result.Ok v : Result α α).equals (Result.Err w) = false)
  ∧ (∀ v w : α, (Result.Err v : Result α α).equals (Result.Ok w) = false) := by
  refine ⟨fun a b => ?_, fun v w => rfl, fun v w => rfl⟩
  cases a with
  | Ok v =>
    cases b with
    | Ok w => simp [Result.equals]
    | Err f => simp [Result.equals]
  | Err e =>
    cases b with
    | Ok w => simp [Result.equals]
    | Err f => simp [Result.equals, eq_comm]

/-- C9: the synchronous Outcome's lazy alternative altLazy: a Success
receiver is returned unchanged for every thunk (the result does not depend
on the thunk, which is the extensional content of the thunk never being
invoked), and a Failure receiver returns the thunk's value. -/
theorem altLazy_lazy (ε α : Type) :
    (∀ (v : α) (f : Unit → Result ε α), (Result.Ok v : Result ε α).altLazy f = Result.Ok v)
  ∧ (∀ (e : ε) (f : Unit → Result ε α), (Result.Err e : Result ε α).altLazy f = f ()) :=
  ⟨fun _ _ => rfl, fun _ _ => rfl⟩

/-- C10: ifFailure and ifSuccess return the receiver itself unchanged, and
the trace of effect calls they perform is exactly one invocation of the
effect when the receiver's variant matches (Failure for ifErr, Success for
ifOk) and empty otherwise. -/
theorem ifOk_ifErr_frame (ε α : Type) :
    (∀ (r : Result ε α) (eff : α → Trace), (r.ifOk eff).1 = r)
  ∧ (∀ (r : Result ε α) (eff : ε → Trace), (r.ifErr eff).1 = r)
  ∧ (∀ (v : α) (eff : α → Trace), (Result.Ok v : Result ε α).ifOk eff = (Result.Ok v, eff v))
  ∧ (∀ (e : ε) (eff : α → Trace), (Result.Err e : Result ε α).ifOk eff = (Result.Err e, []))
  ∧ (∀ (e : ε) (eff : ε → Trace), (Result.Err e : Result ε α).ifErr eff = (Result.Err e, eff e))
  ∧ (∀ (v : α) (eff : ε → Trace), (Result.Ok v : Result ε α).ifErr eff = (Result.Ok v, [])) := by
  refine ⟨fun r eff => ?_, fun r eff => ?_, fun _ _ => rfl, fun _ _ => rfl, fun _ _ => rfl, fun _ _ => rfl⟩
  · cases r <;> rfl
  · cases r <;> rfl

/-- C1: run always resolves to an Outcome (its total Result-valued type —
the model has no rejection channel for run): a producer that completes
normally with v yields Success(v); a producer aborted by throwE(e), by
liftResult on a Failure, or by fromPromise on an upstream Failure or
rejection yields Failure(e); and a producer that rejects or throws x
uncaught yields Failure(x). -/
theorem run_unifies_failures (ε α β : Type) :
    (∀ (c : Comp ε α) (v : α), c.result = Except.ok v →
      (ResultAsync.mk c).run = Result.Ok v)
  ∧ (∀ (e : ε) (k : β → Comp ε α),
      (ResultAsync.mk (bindComp (helpers.throwE e) k)).run = Result.Err e)
  ∧ (∀ (e : ε) (k : β → Comp ε α),
      (ResultAsync.mk (bindComp (helpers.liftResult (Result.Err e)) k)).run = Result.Err e)
  ∧ (∀ (p : Comp ε (Result ε β)) (k : β → Comp ε α) (e : ε),
      p.result = Except.ok (Result.Err e) →
      (ResultAsync.mk (bindComp (helpers.fromPromise p) k)).run = Result.Err e)
  ∧ (∀ (p : Comp ε (Result ε β)) (k : β → Comp ε α) (e : ε),
      p.result = Except.error e →
      (ResultAsync.mk (bindComp (helpers.fromPromise p) k)).run = Result.Err e)
  ∧ (∀ (c : Comp ε α) (x : ε), c.result = Except.error x →
      (ResultAsync.mk c).run = Result.Err x) := by
  refine ⟨fun c v h => run_of_ok h, fun e k => ?_, fun e k => ?_,
    fun p k e h => ?_, fun p k e h => ?_, fun c x h => run_of_error h⟩
  · rfl
  · rfl
  · simp [ResultAsync.run, bindComp, helpers.fromPromise, helpers.liftResult, h]
  · simp [ResultAsync.run, bindComp, helpers.fromPromise, helpers.liftResult, h]

/-- Witness for C1 at concrete inputs, including the spec's concrete
scenario of a producer that rejects with a value. -/
theorem run_unifies_failures_witness :
    (ResultAsync.mk (⟨[0], Except.ok 5⟩ : Comp Nat Nat)).run = Result.Ok 5
  ∧ (ResultAsync.mk (bindComp (helpers.fromPromise (⟨[1], Except.error 3⟩ : Comp Nat (Result Nat Nat))) pureComp)).run = Result.Err 3
  ∧ (ResultAsync.mk (⟨[2], Except.error 9⟩ : Comp Nat Nat)).run = Result.Err 9 :=
  ⟨(run_unifies_failures Nat Nat Nat).1 _ 5 rfl,
   (run_unifies_failures Nat Nat Nat).2.2.2.2.1 _ pureComp 3 rfl,
   (run_unifies_failures Nat Nat Nat).2.2.2.2.2 _ 9 rfl⟩

/-- The helper liftResult performs no producer invocations of its own. -/
theorem liftResult_trace {ε α : Type} (r : Result ε α) :
    (helpers.liftResult r).trace = [] := by cases r <;> rfl

/-- Running a producer that is a lifted Result recovers the Result. -/
theorem run_mk_liftResult {ε α : Type} (r : Result ε α) :
    (ResultAsync.mk (helpers.liftResult r)).run = r := by cases r <;> rfl

/-- C4 counterexample: the claim says failures raised by the effect are not
folded into the result, but on a Success receiver an effect that throws 7
makes finallyRun's run resolve to Failure 7, not to the receiver's
Success 1 — the host's finally rejects when its callback throws, and run
folds that rejection. -/
theorem finallyRun_folds_effect_throw :
    ((ResultAsync.liftResult (Result.Ok 1 : Result Nat Nat)).finallyRun ⟨[], some 7⟩).run = Result.Err 7
  ∧ (ResultAsync.liftResult (Result.Ok 1 : Result Nat Nat)).run = Result.Ok 1
  ∧ (Result.Err 7 : Result Nat Nat) ≠ Result.Ok 1 := by
  refine ⟨rfl, rfl, by decide⟩

/-- C4 amended: finallyRun's effect executes after the receiver's run
completes regardless of the outcome's variant (the composite trace is the
receiver's trace followed by the effect's); when the effect completes
normally the result is the receiver's own Outcome; when the effect throws
e the result is Failure e (folded per the run contract). -/
theorem finallyRun_theorem (ε α : Type) :
    (∀ (x : ResultAsync ε α) (eff : Effect ε),
      (x.finallyRun eff).runPromise.trace = x.runPromise.trace ++ eff.trace)
  ∧ (∀ (x : ResultAsync ε α) (tr : Trace),
      (x.finallyRun ⟨tr, none⟩).run = x.run)
  ∧ (∀ (x : ResultAsync ε α) (tr : Trace) (e : ε),
      (x.finallyRun ⟨tr, some e⟩).run = Result.Err e) := by
  refine ⟨fun x eff => ?_, fun x tr => ?_, fun x tr e => ?_⟩
  · obtain ⟨trE, th⟩ := eff
    cases th <;>
      simp [ResultAsync.finallyRun, helpers.fromPromise, bindComp, promiseFinally,
        ResultAsync.awaitRun, liftResult_trace]
  · obtain ⟨⟨trx, resx⟩⟩ := x
    cases resx <;>
      simp [ResultAsync.finallyRun, helpers.fromPromise, bindComp, promiseFinally,
        ResultAsync.awaitRun, ResultAsync.run, helpers.liftResult]
  · simp [ResultAsync.finallyRun, helpers.fromPromise, bindComp, promiseFinally,
      ResultAsync.awaitRun, ResultAsync.run]

/-- C8: swap is an involution at the run level: two swaps restore the
receiver's run Outcome (and the composite performs exactly the receiver's
producer effects). -/
theorem swap_swap_run (ε α : Type) :
    ∀ x : ResultAsync ε α,
      x.swap.swap.run = x.run
      ∧ x.swap.swap.runPromise.trace = x.runPromise.trace := by
  intro x
  obtain ⟨⟨tr, res⟩⟩ := x
  cases res <;>
    constructor <;>
      simp [ResultAsync.swap, ResultAsync.awaitRun, ResultAsync.run, bindComp,
        helpers.throwE, helpers.liftResult]

/-- C6: for the synchronous Outcome a Success receiver wins for every
argument and a double Failure yields the argument's Failure; for
AsyncOutcome, a successful receiver short-circuits — the result is that
Success and the composite trace is the receiver's alone, so the argument's
producer is never invoked — while a failed receiver yields the argument's
run Outcome. -/
theorem alt_first_success (ε α : Type) :
    (∀ (v : α) (o : Result ε α), (Result.Ok v : Result ε α).alt o = Result.Ok v)
  ∧ (∀ (e e2 : ε), (Result.Err e : Result ε α).alt (Result.Err e2) = Result.Err e2)
  ∧ (∀ (x y : ResultAsync ε α) (v : α), x.run = Result.Ok v →
      (x.alt y).run = Result.Ok v
      ∧ (x.alt y).runPromise.trace = x.runPromise.trace)
  ∧ (∀ (x y : ResultAsync ε α) (e : ε), x.run = Result.Err e →
      (x.alt y).run = y.run
      ∧ (x.alt y).runPromise.trace = x.runPromise.trace ++ y.runPromise.trace) := by
  refine ⟨fun v o => rfl, fun e e2 => rfl, fun x y v h => ?_, fun x y e h => ?_⟩
  · obtain ⟨⟨trx, resx⟩⟩ := x
    cases resx with
    | error e2 => simp [ResultAsync.run] at h
    | ok v2 =>
      simp only [ResultAsync.run] at h
      cases h
      constructor <;>
        simp [ResultAsync.alt, ResultAsync.awaitRun, ResultAsync.run, bindComp, pureComp]
  · obtain ⟨⟨trx, resx⟩⟩ := x
    obtain ⟨⟨trb, resy⟩⟩ := y
    cases resx with
    | ok v2 => simp [ResultAsync.run] at h
    | error e2 =>
      cases resy <;>
        constructor <;>
          simp [ResultAsync.alt, ResultAsync.awaitRun, ResultAsync.run, bindComp,
            helpers.liftResult]

/-- Witness for C6's asynchronous conjuncts at concrete producers. -/
theorem alt_first_success_witness :
    (((ResultAsync.mk (⟨[0], Except.ok 1⟩ : Comp Nat Nat)).alt (ResultAsync.mk ⟨[1], Except.ok 2⟩)).run = Result.Ok 1
      ∧ ((ResultAsync.mk (⟨[0], Except.ok 1⟩ : Comp Nat Nat)).alt (ResultAsync.mk ⟨[1], Except.ok 2⟩)).runPromise.trace = [0])
  ∧ (((ResultAsync.mk (⟨[2], Except.error 7⟩ : Comp Nat Nat)).alt (ResultAsync.mk ⟨[3], Except.ok 4⟩)).run = (ResultAsync.mk (⟨[3], Except.ok 4⟩ : Comp Nat Nat)).run
      ∧ ((ResultAsync.mk (⟨[2], Except.error 7⟩ : Comp Nat Nat)).alt (ResultAsync.mk ⟨[3], Except.ok 4⟩)).runPromise.trace = [2] ++ [3]) :=
  ⟨(alt_first_success Nat Nat).2.2.1 _ _ 1 rfl,
   (alt_first_success Nat Nat).2.2.2 _ _ 7 rfl⟩

/-- The synchronous sequence loop over a list of Ok values appends their
payloads to the accumulator. -/
theorem sequenceGo_all_ok {ε α : Type} :
    ∀ (vs acc : List α),
      Result.sequenceGo (vs.map (Result.Ok : α → Result ε α)) acc = Result.Ok (acc ++ vs)
  | [], acc => by simp [Result.sequenceGo]
  | v :: vs, acc => by
      simp [Result.sequenceGo, sequenceGo_all_ok vs (acc ++ [v])]

/-- The synchronous sequence loop returns the positionally first Err when
it follows an all-Ok prefix, whatever comes after it. -/
theorem sequenceGo_first_err {ε α : Type} :
    ∀ (rs : List (Result ε α)) (acc : List α) (e : ε) (rest : List (Result ε α)),
      (∀ r ∈ rs, r.isOk = true) →
      Result.sequenceGo (rs ++ Result.Err e :: rest) acc = Result.Err e
  | [], _, _, _, _ => by simp [Result.sequenceGo]
  | r :: rs, acc, e, rest, h => by
      cases r with
      | Err f =>
        have := h _ (List.mem_cons_self _ _)
        simp [Result.isOk] at this
      | Ok v =>
        simp only [List.cons_append, Result.sequenceGo]
        exact sequenceGo_first_err rs (acc ++ [v]) e rest
          (fun r hr => h r (List.mem_cons_of_mem _ hr))

/-- Running the asynchronous sequence loop gives the synchronous sequence
loop applied to the elements' run Results. -/
theorem seqGo_run {ε α : Type} :
    ∀ (l : List (ResultAsync ε α)) (acc : List α),
      (ResultAsync.mk (ResultAsync.seqGo l acc)).run
        = Result.sequenceGo (l.map ResultAsync.run) acc
  | [], acc => by
      simp [ResultAsync.seqGo, Result.sequenceGo, run_mk_liftResult]
  | e :: rest, acc => by
      obtain ⟨⟨tr, res⟩⟩ := e
      cases res with
      | error er =>
        simp [ResultAsync.seqGo, ResultAsync.awaitRun, ResultAsync.run, bindComp,
          helpers.liftResult, Result.sequenceGo]
      | ok v =>
        have ih := seqGo_run rest (acc ++ [v])
        simp only [ResultAsync.run] at ih ⊢
        simp only [ResultAsync.seqGo, ResultAsync.awaitRun, bindComp, List.map_cons,
          Result.sequenceGo] at ih ⊢
        simpa using ih

/-- With every element running to Ok, the sequence loop performs every
producer's effects in input order. -/
theorem seqGo_trace_ok {ε α : Type} :
    ∀ (l : List (ResultAsync ε α)) (acc : List α),
      (∀ y ∈ l, y.run.isOk = true) →
      (ResultAsync.seqGo l acc).trace = l.flatMap fun y => y.runPromise.trace
  | [], acc, _ => by simp [ResultAsync.seqGo, liftResult_trace]
  | y :: l, acc, h => by
      obtain ⟨⟨tr, res⟩⟩ := y
      cases res with
      | error er =>
        have := h _ (List.mem_cons_self _ _)
        simp [ResultAsync.run, Result.isOk] at this
      | ok v =>
        simp only [ResultAsync.seqGo, ResultAsync.awaitRun, bindComp, List.flatMap_cons,
          ResultAsync.run, List.append_eq]
        rw [seqGo_trace_ok l (acc ++ [v]) (fun z hz => h z (List.mem_cons_of_mem _ hz))]

/-- With an all-Ok prefix followed by a failing element, the sequence loop
performs exactly the prefix producers' effects and then the failing
producer's — the elements after the failure contribute nothing. -/
theorem seqGo_trace_err {ε α : Type} :
    ∀ (l₁ : List (ResultAsync ε α)) (x : ResultAsync ε α) (l₂ : List (ResultAsync ε α)) (acc : List α),
      (∀ y ∈ l₁, y.run.isOk = true) → x.run.isErr = true →
      (ResultAsync.seqGo (l₁ ++ x :: l₂) acc).trace
        = (l₁.flatMap fun y => y.runPromise.trace) ++ x.runPromise.trace
  | [], x, l₂, acc, _, hx => by
      obtain ⟨⟨tr, res⟩⟩ := x
      cases res with
      | ok v => simp [ResultAsync.run, Result.isErr] at hx
      | error er =>
        simp [ResultAsync.seqGo, ResultAsync.awaitRun, ResultAsync.run, bindComp,
          liftResult_trace]
  | y :: l₁, x, l₂, acc, h, hx => by
      obtain ⟨⟨tr, res⟩⟩ := y
      cases res with
      | error er =>
        have := h _ (List.mem_cons_self _ _)
        simp [ResultAsync.run, Result.isOk] at this
      | ok v =>
        simp only [List.cons_append, ResultAsync.seqGo, ResultAsync.awaitRun, bindComp,
          List.flatMap_cons, ResultAsync.run, List.append_eq]
        rw [seqGo_trace_err l₁ x l₂ (acc ++ [v]) (fun z hz => h z (List.mem_cons_of_mem _ hz)) hx]
        simp

/-- Elements whose run Results are exactly a list of Ok values all satisfy
the isOk predicate. -/
theorem all_ok_of_map_run {ε α : Type} {l : List (ResultAsync ε α)} {vs : List α}
    (h : l.map ResultAsync.run = vs.map Result.Ok) :
    ∀ y ∈ l, y.run.isOk = true := by
  intro y hy
  have hm : y.run ∈ vs.map (Result.Ok : α → Result ε α) := by
    rw [← h]
    exact List.mem_map_of_mem _ hy
  obtain ⟨v, _, hv⟩ := List.mem_map.mp hm
  rw [← hv]
  rfl

/-- C3: sequence runs the elements strictly in input order; on an empty
list it resolves to Success of the empty list with no producer invoked;
its run is the synchronous sequence of the elements' runs; when every
element succeeds it resolves to Success of the ordered values having run
every producer in order; and past an all-success prefix it stops at the
first failing element, returning that Failure, with the producers of all
later elements never invoked (the composite trace ends at the failing
element). -/
theorem sequence_short_circuits (ε α : Type) :
    ((ResultAsync.sequence ([] : List (ResultAsync ε α))).run = Result.Ok []
      ∧ (ResultAsync.sequence ([] : List (ResultAsync ε α))).runPromise.trace = [])
  ∧ (∀ l : List (ResultAsync ε α),
      (ResultAsync.sequence l).run = Result.sequence (l.map ResultAsync.run))
  ∧ (∀ (l : List (ResultAsync ε α)) (vs : List α),
      l.map ResultAsync.run = vs.map Result.Ok →
      (ResultAsync.sequence l).run = Result.Ok vs
      ∧ (ResultAsync.sequence l).runPromise.trace = l.flatMap fun y => y.runPromise.trace)
  ∧ (∀ (l₁ : List (ResultAsync ε α)) (x : ResultAsync ε α) (l₂ : List (ResultAsync ε α)) (e : ε),
      (∀ y ∈ l₁, y.run.isOk = true) → x.run = Result.Err e →
      (ResultAsync.sequence (l₁ ++ x :: l₂)).run = Result.Err e
      ∧ (ResultAsync.sequence (l₁ ++ x :: l₂)).runPromise.trace
          = (l₁.flatMap fun y => y.runPromise.trace) ++ x.runPromise.trace) := by
  refine ⟨⟨rfl, rfl⟩, fun l => seqGo_run l [], fun l vs h => ⟨?_, ?_⟩, fun l₁ x l₂ e h hx => ⟨?_, ?_⟩⟩
  · rw [show (ResultAsync.sequence l).run = Result.sequenceGo (l.map ResultAsync.run) [] from seqGo_run l [], h, sequenceGo_all_ok]
    rfl
  · exact seqGo_trace_ok l [] (all_ok_of_map_run h)
  · rw [show (ResultAsync.sequence (l₁ ++ x :: l₂)).run
        = Result.sequenceGo ((l₁ ++ x :: l₂).map ResultAsync.run) [] from seqGo_run _ []]
    rw [List.map_append, List.map_cons, hx]
    refine sequenceGo_first_err _ [] e _ ?_
    intro r hr
    obtain ⟨y, hy, hv⟩ := List.mem_map.mp hr
    rw [← hv]
    exact h y hy
  · refine seqGo_trace_err l₁ x l₂ [] h ?_
    rw [hx]
    rfl

/-- Witness for C3 at concrete producers: a success run invoking all
producers in order, and a short-circuiting run where the element after the
failure is never invoked. -/
theorem sequence_short_circuits_witness :
    ((ResultAsync.sequence [ResultAsync.mk (⟨[4], Except.ok 1⟩ : Comp Nat Nat), ResultAsync.mk ⟨[5], Except.ok 2⟩]).run = Result.Ok [1, 2]
      ∧ (ResultAsync.sequence [ResultAsync.mk (⟨[4], Except.ok 1⟩ : Comp Nat Nat), ResultAsync.mk ⟨[5], Except.ok 2⟩]).runPromise.trace = [4, 5])
  ∧ ((ResultAsync.sequence ([ResultAsync.mk (⟨[0], Except.ok 1⟩ : Comp Nat Nat)] ++ ResultAsync.mk ⟨[1], Except.error 5⟩ :: [ResultAsync.mk ⟨[2], Except.ok 3⟩])).run = Result.Err 5
      ∧ (ResultAsync.sequence ([ResultAsync.mk (⟨[0], Except.ok 1⟩ : Comp Nat Nat)] ++ ResultAsync.mk ⟨[1], Except.error 5⟩ :: [ResultAsync.mk ⟨[2], Except.ok 3⟩])).runPromise.trace = [0] ++ [1]) := by
  constructor
  · have h := (sequence_short_circuits Nat Nat).2.2.1
      [ResultAsync.mk ⟨[4], Except.ok 1⟩, ResultAsync.mk ⟨[5], Except.ok 2⟩] [1, 2] rfl
    exact ⟨h.1, by simpa using h.2⟩
  · have h := (sequence_short_circuits Nat Nat).2.2.2
      [ResultAsync.mk ⟨[0], Except.ok 1⟩] (ResultAsync.mk ⟨[1], Except.error 5⟩)
      [ResultAsync.mk ⟨[2], Except.ok 3⟩] 5 (by decide) rfl
    exact ⟨h.1, by simpa using h.2⟩

/-- Running all gives the synchronous sequence of the elements' runs: the
aggregate fulfills with the run Results in input order and Result.sequence
is applied to that list. -/
theorem all_run {ε α : Type} (eas : List (ResultAsync ε α)) :
    (ResultAsync.all eas).run = Result.sequence (eas.map ResultAsync.run) := by
  cases hs : Result.sequence (eas.map ResultAsync.run) <;>
    simp [ResultAsync.all, ResultAsync.fromPromise, helpers.fromPromise, bindComp,
      promiseAllRuns, pureComp, ResultAsync.run, helpers.liftResult, hs]

/-- all performs every element's producer effects in input order, whatever
the elements' outcomes: each producer is invoked even when another element
fails. -/
theorem all_trace {ε α : Type} (eas : List (ResultAsync ε α)) :
    (ResultAsync.all eas).runPromise.trace = eas.flatMap fun x => x.runPromise.trace := by
  cases hs : Result.sequence (eas.map ResultAsync.run) <;>
    simp [ResultAsync.all, ResultAsync.fromPromise, helpers.fromPromise, bindComp,
      promiseAllRuns, pureComp, liftResult_trace, hs]

/-- C2 counterexample: two elements that both fail, where the second
(rejecting with 20) completes at time 1, before the first (rejecting with
10, completing at time 5). The claim says the result is the first Failure
observed in concurrent completion order — the spec-side model
allByCompletion gives Failure 20 — but the code resolves to Failure 10,
the positionally first: run never rejects, so Promise.all cannot settle
early and Result.sequence scans in input order. -/
theorem all_completion_order_counterexample :
    (ResultAsync.all [ResultAsync.mk (⟨[0], Except.error 10⟩ : Comp Nat Nat), ResultAsync.mk ⟨[1], Except.error 20⟩]).run = Result.Err 10
  ∧ allByCompletion [(ResultAsync.mk (⟨[0], Except.error 10⟩ : Comp Nat Nat), 5), (ResultAsync.mk ⟨[1], Except.error 20⟩, 1)] = Result.Err 20
  ∧ (Result.Err 10 : Result Nat (List Nat)) ≠ Result.Err 20 := by
  refine ⟨rfl, rfl, by decide⟩

/-- C2 amended: all starts every element, so every producer is invoked in
input order even when another element fails; since run never rejects, the
aggregate waits for all elements and resolves to the positionally first
Failure in input order — not the first by concurrent completion — or to
Success of the ordered success values when every element succeeds;
all([]) resolves to Success([]). -/
theorem all_positional_first_failure (ε α : Type) :
    (∀ eas : List (ResultAsync ε α),
      (ResultAsync.all eas).runPromise.trace = eas.flatMap fun x => x.runPromise.trace)
  ∧ (∀ eas : List (ResultAsync ε α),
      (ResultAsync.all eas).run = Result.sequence (eas.map ResultAsync.run))
  ∧ (∀ (eas : List (ResultAsync ε α)) (vs : List α),
      eas.map ResultAsync.run = vs.map Result.Ok →
      (ResultAsync.all eas).run = Result.Ok vs)
  ∧ (∀ (l₁ : List (ResultAsync ε α)) (x : ResultAsync ε α) (l₂ : List (ResultAsync ε α)) (e : ε),
      (∀ y ∈ l₁, y.run.isOk = true) → x.run = Result.Err e →
      (ResultAsync.all (l₁ ++ x :: l₂)).run = Result.Err e)
  ∧ ((ResultAsync.all ([] : List (ResultAsync ε α))).run = Result.Ok []) := by
  refine ⟨all_trace, all_run, fun eas vs h => ?_, fun l₁ x l₂ e h hx => ?_, all_run []⟩
  · rw [all_run, h, Result.sequence, sequenceGo_all_ok]
    rfl
  · rw [all_run, List.map_append, List.map_cons, hx, Result.sequence]
    refine sequenceGo_first_err _ [] e _ ?_
    intro r hr
    obtain ⟨y, hy, hv⟩ := List.mem_map.mp hr
    rw [← hv]
    exact h y hy

/-- Witness for C2's amended theorem at concrete producers: the failing
aggregate still invokes the producer positioned after the failure, and an
all-success aggregate collects the ordered values. -/
theorem all_positional_first_failure_witness :
    (ResultAsync.all ([ResultAsync.mk (⟨[0], Except.ok 1⟩ : Comp Nat Nat)] ++ ResultAsync.mk ⟨[1], Except.error 5⟩ :: [ResultAsync.mk ⟨[2], Except.ok 3⟩])).run = Result.Err 5
  ∧ (ResultAsync.all [ResultAsync.mk (⟨[4], Except.ok 1⟩ : Comp Nat Nat), ResultAsync.mk ⟨[5], Except.ok 2⟩]).run = Result.Ok [1, 2] :=
  ⟨(all_positional_first_failure Nat Nat).2.2.2.1
      [ResultAsync.mk ⟨[0], Except.ok 1⟩] (ResultAsync.mk ⟨[1], Except.error 5⟩)
      [ResultAsync.mk ⟨[2], Except.ok 3⟩] 5 (by decide) rfl,
   (all_positional_first_failure Nat Nat).2.2.1
      [ResultAsync.mk ⟨[4], Except.ok 1⟩, ResultAsync.mk ⟨[5], Except.ok 2⟩] [1, 2] rfl⟩
